import Mathlib

/-!
Shallow embedding of the srsRAN LDPC encoder (`lib/src/phy/fec/ldpc/ldpc_encoder.c`)
and verification of its specified properties.

Bytes are modelled as natural numbers (the code uses one bit per byte);
the machine-integer operations of the source (`uint32_t` subtraction and
the narrowing store into `uint8_t`) are modelled with explicit `% 2^32`
and `% 2^8` where overflow can matter.

The high-rate kernels, the extension-region kernel and the AVX2
load/store helpers live in other files of the repository that are not
part of this excerpt; following the source's own design (they are reached
through per-instance function pointers), the encode functions here take
them as function parameters, and their observable contract (which output
region they produce, and its size) is modelled from the spec where needed.
-/

namespace SrsLDPC

/-- Base graph BG1 (C enum value 0). -/
def BG1 : Nat := 0

/-- Base graph BG2 (C enum value 1). -/
def BG2 : Nat := 1

/-- Sentinel returned by the lifting-size classifier for an unsupported size. -/
def VOID_LIFTSIZE : Nat := 8

/-- Modelled from the spec: the Lifting-Size Classifier `get_ls_index`
(declared in `base_graph.h`, not part of this excerpt) maps a requested
lifting size to one of eight ordered size-class indices — the standard's
eight geometric families, multiples of 2, 3, 5, 7, 9, 11, 13, 15 up to the
cap 384 — or to the failure sentinel `VOID_LIFTSIZE` if the size does not
belong to the standardized set. -/
def get_ls_index (ls : Nat) : Nat :=
  if [2, 4, 8, 16, 32, 64, 128, 256].contains ls then 0
  else if [3, 6, 12, 24, 48, 96, 192, 384].contains ls then 1
  else if [5, 10, 20, 40, 80, 160, 320].contains ls then 2
  else if [7, 14, 28, 56, 112, 224].contains ls then 3
  else if [9, 18, 36, 72, 144, 288].contains ls then 4
  else if [11, 22, 44, 88, 176, 352].contains ls then 5
  else if [13, 26, 52, 104, 208].contains ls then 6
  else if [15, 30, 60, 120, 240].contains ls then 7
  else VOID_LIFTSIZE

/-- Modelled from the spec: the fixed block dimensions of the two
standardized base graphs (`BG1Nfull`, `BG1M`, `BG2Nfull`, `BG2M` from
`base_graph.h`, not part of this excerpt): BG1 has 46 block-rows and 68
block-columns, BG2 has 42 block-rows and 52 block-columns. -/
def BG1Nfull : Nat := 68

/-- Number of block-rows of base graph 1. -/
def BG1M : Nat := 46

/-- Total number of block-columns of base graph 2. -/
def BG2Nfull : Nat := 52

/-- Number of block-rows of base graph 2. -/
def BG2M : Nat := 42

/-- Modelled from the spec: `SRSLTE_AVX2_B_SIZE` (from `utils_avx2.h`, not
part of this excerpt), the lifting-size threshold below which the
narrow-register accelerated tier is used. -/
def SRSLTE_AVX2_B_SIZE : Nat := 32

/-- The `srslte_ldpc_encoder_t` struct. Machine words are modelled as `Nat`;
the pointer fields (`pcm`, `ptr`, `free`) are modelled by flags recording
whether they are set (non-null), and the function-pointer bindings
(`encode`, `encode_high_rate`) by the tier tag (0 = portable C,
1 = AVX2 narrow, 2 = AVX2 long) and the selected kernel-variant number
(1–4, 0 = unset). -/
structure srslte_ldpc_encoder_t where
  bg : Nat
  bgN : Nat
  bgM : Nat
  bgK : Nat
  ls : Nat
  liftK : Nat
  liftM : Nat
  liftN : Nat
  pcm_set : Bool
  ptr_set : Bool
  free_set : Bool
  hr_variant : Nat
  tier : Nat
deriving DecidableEq, Repr

/-- The all-zero struct produced by `bzero(q, sizeof(srslte_ldpc_encoder_t))`. -/
def zero_enc : srslte_ldpc_encoder_t :=
  { bg := 0, bgN := 0, bgM := 0, bgK := 0, ls := 0, liftK := 0, liftM := 0,
    liftN := 0, pcm_set := false, ptr_set := false, free_set := false,
    hr_variant := 0, tier := 0 }

/-- The high-rate kernel variant selected by the `if`/`else if` chain shared
by `init_c`, `init_avx2` and `init_avx2long` (lines 99–110 and their AVX2
copies): BG1 with class index ≠ 6 → case 1, BG1 with index 6 → case 2,
BG2 with index ∉ {3, 7} → case 3, BG2 with index ∈ {3, 7} → case 4,
anything else → error. -/
def select_hr_variant (bg ls_index : Nat) : Option Nat :=
  if bg = BG1 ∧ ls_index ≠ 6 then some 1
  else if bg = BG1 ∧ ls_index = 6 then some 2
  else if bg = BG2 ∧ ls_index ≠ 3 ∧ ls_index ≠ 7 then some 3
  else if bg = BG2 ∧ (ls_index = 3 ∨ ls_index = 7) then some 4
  else none

/-- Common body of the tier initializers `init_c` / `init_avx2` /
`init_avx2long`: reject an invalid lifting size, bind the high-rate kernel
variant, bind the tier's free routine and allocate the tier's scratch
buffer (allocation success is assumed: allocation failure is a resource
error outside the scope of the embedded logic). -/
def init_tiered (t : Nat) (q : srslte_ldpc_encoder_t) : Option srslte_ldpc_encoder_t :=
  if get_ls_index q.ls = VOID_LIFTSIZE then none
  else
    match select_hr_variant q.bg (get_ls_index q.ls) with
    | none => none
    | some v =>
        some { q with hr_variant := v, free_set := true, ptr_set := true, tier := t }

/-- `init_c` (lines 90–124). -/
def init_c (q : srslte_ldpc_encoder_t) : Option srslte_ldpc_encoder_t :=
  init_tiered 0 q

/-- `init_avx2` (lines 184–217). -/
def init_avx2 (q : srslte_ldpc_encoder_t) : Option srslte_ldpc_encoder_t :=
  init_tiered 1 q

/-- `init_avx2long` (lines 276–309). -/
def init_avx2long (q : srslte_ldpc_encoder_t) : Option srslte_ldpc_encoder_t :=
  init_tiered 2 q

/-- The `switch (bg)` of `srslte_ldpc_encoder_init` (lines 319–331):
the block dimensions `(bgN, bgM)` for each base graph, or an error for an
unknown base-graph value. -/
def base_graph_dims (bg : Nat) : Option (Nat × Nat) :=
  match bg with
  | 0 => some (BG1Nfull, BG1M)
  | 1 => some (BG2Nfull, BG2M)
  | _ => none

/-- `srslte_ldpc_encoder_init` (lines 313–364): set the base-graph
dimensions (failing for an unknown base graph), derive the lifted
dimensions, build the compact PCM, and dispatch to the requested tier's
initializer (type 0 = `SRSLTE_LDPC_ENCODER_C`, type 1 =
`SRSLTE_LDPC_ENCODER_AVX2`, split on `ls <= SRSLTE_AVX2_B_SIZE`; any other
type returns an error). `none` models every `return -1` path. -/
def srslte_ldpc_encoder_init (type bg ls : Nat) : Option srslte_ldpc_encoder_t :=
  match base_graph_dims bg with
  | none => none
  | some (bgN, bgM) =>
    let q : srslte_ldpc_encoder_t :=
      { bg := bg, bgN := bgN, bgM := bgM, bgK := bgN - bgM, ls := ls,
        liftK := ls * (bgN - bgM), liftM := ls * bgM, liftN := ls * bgN,
        pcm_set := true, ptr_set := false, free_set := false,
        hr_variant := 0, tier := 0 }
    match type with
    | 0 => init_c q
    | 1 => if ls ≤ SRSLTE_AVX2_B_SIZE then init_avx2 q else init_avx2long q
    | _ => none

/-- The rate-matched length normalization performed by `encode_c`
(lines 53–68; the identical statements appear in `encode_avx2` and
`encode_avx2long`): clamp to `liftN - 2*ls`, then raise to the floor
`(bgK + 2) * ls`, then round up to the next multiple of `ls`. All
arithmetic is `uint32_t`; for an initialized encoder no operation here can
wrap, so plain `Nat` arithmetic is exact. -/
def normalize_len (q : srslte_ldpc_encoder_t) (cdwd_rm_length : Nat) : Nat :=
  let a := if cdwd_rm_length > q.liftN - 2 * q.ls then q.liftN - 2 * q.ls
           else cdwd_rm_length
  let b := if a < (q.bgK + 2) * q.ls then (q.bgK + 2) * q.ls else a
  if b % q.ls ≠ 0 then (b / q.ls + 1) * q.ls else b

/-- The layer count `uint8_t n_layers = cdwd_rm_length / q->ls - q->bgK + 2`
(line 82 and its AVX2 copies): the right-hand side is computed in
`uint32_t` (wrapping subtraction) and then narrowed to `uint8_t`. -/
def n_layers_c (q : srslte_ldpc_encoder_t) (len : Nat) : Nat :=
  ((len / q.ls + 2 ^ 32 - q.bgK + 2) % 2 ^ 32) % 2 ^ 8

/-- The systematic-bit copy loop of `encode_c` (lines 71–74):
`output[k] = input[2*ls + k]` for `k < (bgK - 2) * ls`. -/
def systematic_out (q : srslte_ldpc_encoder_t) (input : List Nat) : List Nat :=
  (List.range ((q.bgK - 2) * q.ls)).map fun k => input.getD (2 * q.ls + k) 0

/-- The region of the output buffer written by a successful `encode_c` call:
the punctured systematic blocks, then the four high-rate parity blocks
produced by the bound high-rate kernel `hr` (spec §4.4: the kernel writes
the 4 parity block-columns into the parity region), then the extension
layers produced by the extension-region kernel `ext` at the computed layer
count (spec §4.5). -/
def codeword_c (hr : List Nat → List Nat) (ext : List Nat → Nat → List Nat)
    (q : srslte_ldpc_encoder_t) (input : List Nat) (cdwd_rm_length : Nat) :
    List Nat :=
  systematic_out q input ++ hr input ++
    ext input (n_layers_c q (normalize_len q cdwd_rm_length))

/-- `encode_c` (lines 45–87), acting on an explicit output buffer: reject a
dimension mismatch (`input_length / bgK != ls`) with result −1 and the
buffer untouched; otherwise normalize the requested length, write the
systematic copy, the high-rate parity and the extension layers over the
front of the buffer, and return 0. `hr` and `ext` stand for the
function-pointer bindings `q->encode_high_rate` / `encode_ext_region`. -/
def encode_c (hr : List Nat → List Nat) (ext : List Nat → Nat → List Nat)
    (q : srslte_ldpc_encoder_t) (input output : List Nat)
    (input_length cdwd_rm_length : Nat) : Int × List Nat :=
  if input_length / q.bgK ≠ q.ls then (-1, output)
  else
    (0, codeword_c hr ext q input cdwd_rm_length ++
          output.drop (codeword_c hr ext q input cdwd_rm_length).length)

/-- `encode_avx2` (lines 140–181). The dimension check, the length
normalization and the layer count are embedded from the source (they are
textual copies of the `encode_c` statements); the internal-buffer pipeline
(`load_avx2`, `preprocess_systematic_bits_avx2`, the AVX2 high-rate kernel,
`encode_ext_region_avx2`, `return_codeword_avx2`) is modelled from the
spec (§4.3–4.5: the preprocessing is behaviorally a no-op for the caller
and the tier emits the punctured systematic blocks followed by the same
parity layers), using the same kernel parameters `hr` and `ext`. -/
def encode_avx2 (hr : List Nat → List Nat) (ext : List Nat → Nat → List Nat)
    (q : srslte_ldpc_encoder_t) (input output : List Nat)
    (input_length cdwd_rm_length : Nat) : Int × List Nat :=
  if input_length / q.bgK ≠ q.ls then (-1, output)
  else
    let a := if cdwd_rm_length > q.liftN - 2 * q.ls then q.liftN - 2 * q.ls
             else cdwd_rm_length
    let b := if a < (q.bgK + 2) * q.ls then (q.bgK + 2) * q.ls else a
    let len := if b % q.ls ≠ 0 then (b / q.ls + 1) * q.ls else b
    let nl := ((len / q.ls + 2 ^ 32 - q.bgK + 2) % 2 ^ 32) % 2 ^ 8
    let cw := systematic_out q input ++ hr input ++ ext input nl
    (0, cw ++ output.drop cw.length)

/-- `encode_avx2long` (lines 232–273); same modelling as `encode_avx2`,
with the long-lifting-size buffer layout abstracted away per the spec. -/
def encode_avx2long (hr : List Nat → List Nat) (ext : List Nat → Nat → List Nat)
    (q : srslte_ldpc_encoder_t) (input output : List Nat)
    (input_length cdwd_rm_length : Nat) : Int × List Nat :=
  if input_length / q.bgK ≠ q.ls then (-1, output)
  else
    let a := if cdwd_rm_length > q.liftN - 2 * q.ls then q.liftN - 2 * q.ls
             else cdwd_rm_length
    let b := if a < (q.bgK + 2) * q.ls then (q.bgK + 2) * q.ls else a
    let len := if b % q.ls ≠ 0 then (b / q.ls + 1) * q.ls else b
    let nl := ((len / q.ls + 2 ^ 32 - q.bgK + 2) % 2 ^ 32) % 2 ^ 8
    let cw := systematic_out q input ++ hr input ++ ext input nl
    (0, cw ++ output.drop cw.length)

/-- The `q->encode(...)` indirect call: dispatch on the tier bound at
initialization. -/
def encoder_dispatch (hr : List Nat → List Nat) (ext : List Nat → Nat → List Nat)
    (q : srslte_ldpc_encoder_t) (input output : List Nat)
    (input_length cdwd_rm_length : Nat) : Int × List Nat :=
  match q.tier with
  | 0 => encode_c hr ext q input output input_length cdwd_rm_length
  | 1 => encode_avx2 hr ext q input output input_length cdwd_rm_length
  | _ => encode_avx2long hr ext q input output input_length cdwd_rm_length

/-- `srslte_ldpc_encoder_encode` (lines 374–377): full-rate encode, calling
`q->encode` with `cdwd_rm_length = q->liftN - 2 * q->ls`. -/
def srslte_ldpc_encoder_encode (hr : List Nat → List Nat)
    (ext : List Nat → Nat → List Nat) (q : srslte_ldpc_encoder_t)
    (input output : List Nat) (input_length : Nat) : Int × List Nat :=
  encoder_dispatch hr ext q input output input_length (q.liftN - 2 * q.ls)

/-- `srslte_ldpc_encoder_encode_rm` (lines 379–386): rate-matched encode,
forwarding the caller's requested length to `q->encode`. -/
def srslte_ldpc_encoder_encode_rm (hr : List Nat → List Nat)
    (ext : List Nat → Nat → List Nat) (q : srslte_ldpc_encoder_t)
    (input output : List Nat) (input_length cdwd_rm_length : Nat) :
    Int × List Nat :=
  encoder_dispatch hr ext q input output input_length cdwd_rm_length

/-- `srslte_ldpc_encoder_free` (lines 366–372): call the stored free
routine if the pointer is non-null (the release action — the returned
`Bool` records whether it ran), then zero the whole struct. -/
def srslte_ldpc_encoder_free (q : srslte_ldpc_encoder_t) :
    Bool × srslte_ldpc_encoder_t :=
  if q.free_set then (true, zero_enc) else (false, zero_enc)

/-- Spec step 2 of §4.3, stated in the spec's words: "if
`requested_codeword_length > liftN - 2·ls`, clamp down to `liftN - 2·ls`". -/
def spec_clamp_step (q : srslte_ldpc_encoder_t) (c : Nat) : Nat :=
  if c > q.liftN - 2 * q.ls then q.liftN - 2 * q.ls else c

/-- Spec step 3 of §4.3: "if the (possibly clamped) length is below
`(bgK + 2)·ls`, raise it to that floor". -/
def spec_floor_step (q : srslte_ldpc_encoder_t) (c : Nat) : Nat :=
  if c < (q.bgK + 2) * q.ls then (q.bgK + 2) * q.ls else c

/-- Spec step 4 of §4.3: "if the length is not a multiple of `ls`, round up
to the next multiple". -/
def spec_round_step (q : srslte_ldpc_encoder_t) (c : Nat) : Nat :=
  if c % q.ls ≠ 0 then (c / q.ls + 1) * q.ls else c

/-- The variant-selection rule as stated in the spec (§4.2), for comparison
with what initialization actually binds. -/
def spec_variant_rule (bg ls_index : Nat) : Nat :=
  if bg = BG1 ∧ ls_index ≠ 6 then 1
  else if bg = BG1 then 2
  else if ls_index ≠ 3 ∧ ls_index ≠ 7 then 3
  else 4

/-! ## Helper lemmas -/

lemma two_le_ls_of_index_ne_void {ls : Nat}
    (h : get_ls_index ls ≠ VOID_LIFTSIZE) : 2 ≤ ls := by
  by_contra hlt
  push_neg at hlt
  interval_cases ls
  · exact h (by decide)
  · exact h (by decide)

lemma init_tiered_inv {t : Nat} {q0 q : srslte_ldpc_encoder_t}
    (h : init_tiered t q0 = some q) :
    get_ls_index q0.ls ≠ VOID_LIFTSIZE ∧
      ∃ v, select_hr_variant q0.bg (get_ls_index q0.ls) = some v ∧
        q = { q0 with hr_variant := v, free_set := true, ptr_set := true,
                      tier := t } := by
  unfold init_tiered at h
  by_cases hv : get_ls_index q0.ls = VOID_LIFTSIZE
  · rw [if_pos hv] at h
    exact absurd h (by simp)
  · rw [if_neg hv] at h
    rcases hsel : select_hr_variant q0.bg (get_ls_index q0.ls) with _ | v
    · rw [hsel] at h
      exact absurd h (by simp)
    · rw [hsel] at h
      exact ⟨hv, v, rfl, (Option.some.inj h).symm⟩

lemma base_graph_dims_inv {bg : Nat} {d : Nat × Nat}
    (h : base_graph_dims bg = some d) :
    (bg = 0 ∧ d = (68, 46)) ∨ (bg = 1 ∧ d = (52, 42)) := by
  rcases bg with _ | _ | b
  · exact Or.inl ⟨rfl, (Option.some.inj h).symm⟩
  · exact Or.inr ⟨rfl, (Option.some.inj h).symm⟩
  · exact absurd h (by simp [base_graph_dims])

/-- Everything the later proofs need about a successfully initialized
encoder instance. -/
lemma init_inv {type bg ls : Nat} {q : srslte_ldpc_encoder_t}
    (h : srslte_ldpc_encoder_init type bg ls = some q) :
    q.ls = ls ∧ 2 ≤ q.ls ∧ q.liftN = q.ls * q.bgN ∧ q.bgN = q.bgK + q.bgM ∧
      ((q.bgN = 68 ∧ q.bgM = 46 ∧ q.bgK = 22) ∨
        (q.bgN = 52 ∧ q.bgM = 42 ∧ q.bgK = 10)) := by
  unfold srslte_ldpc_encoder_init at h
  rcases hd : base_graph_dims bg with _ | ⟨bgN, bgM⟩
  · rw [hd] at h
    exact absurd h (by simp)
  · rw [hd] at h
    rcases base_graph_dims_inv hd with ⟨hbg, hdim⟩ | ⟨hbg, hdim⟩ <;>
      rcases Prod.mk.injEq .. ▸ hdim with ⟨hN, hM⟩ <;>
      subst hN <;> subst hM <;>
      rcases type with _ | _ | t <;>
      simp only at h
    · rcases init_tiered_inv h with ⟨hv, v, _, hq⟩
      subst hq
      exact ⟨rfl, two_le_ls_of_index_ne_void hv, rfl, by norm_num, by norm_num⟩
    · by_cases hls32 : ls ≤ SRSLTE_AVX2_B_SIZE <;>
        simp only [hls32, if_true, if_false, ite_true, ite_false] at h <;>
        [skip; skip] <;> rcases init_tiered_inv h with ⟨hv, v, _, hq⟩ <;>
        subst hq <;>
        exact ⟨rfl, two_le_ls_of_index_ne_void hv, rfl, by norm_num, by norm_num⟩
    · exact absurd h (by simp)
    · rcases init_tiered_inv h with ⟨hv, v, _, hq⟩
      subst hq
      exact ⟨rfl, two_le_ls_of_index_ne_void hv, rfl, by norm_num, by norm_num⟩
    · by_cases hls32 : ls ≤ SRSLTE_AVX2_B_SIZE <;>
        simp only [hls32, if_true, if_false, ite_true, ite_false] at h <;>
        rcases init_tiered_inv h with ⟨hv, v, _, hq⟩ <;>
        subst hq <;>
        exact ⟨rfl, two_le_ls_of_index_ne_void hv, rfl, by norm_num, by norm_num⟩
    · exact absurd h (by simp)

lemma normalize_len_eq_steps (q : srslte_ldpc_encoder_t) (c : Nat) :
    normalize_len q c =
      spec_round_step q (spec_floor_step q (spec_clamp_step q c)) := rfl

lemma lt_next_multiple (q : srslte_ldpc_encoder_t) (hls : 0 < q.ls) (b : Nat) :
    b < (b / q.ls + 1) * q.ls := by
  calc b = q.ls * (b / q.ls) + b % q.ls := (Nat.div_add_mod b q.ls).symm
    _ < q.ls * (b / q.ls) + q.ls := Nat.add_lt_add_left (Nat.mod_lt b hls) _
    _ = (b / q.ls + 1) * q.ls := by ring

/-- The normalized length is a multiple of `ls` and lies in
`[(bgK + 2) * ls, liftN - 2 * ls]`, for any parameter set in which the
floor does not exceed the cap and the cap is a multiple of `ls`. -/
lemma normalize_len_props (q : srslte_ldpc_encoder_t) (hls : 0 < q.ls)
    (hdvd : q.ls ∣ (q.liftN - 2 * q.ls))
    (hFL : (q.bgK + 2) * q.ls ≤ q.liftN - 2 * q.ls) (c : Nat) :
    normalize_len q c % q.ls = 0 ∧
      (q.bgK + 2) * q.ls ≤ normalize_len q c ∧
      normalize_len q c ≤ q.liftN - 2 * q.ls := by
  rw [normalize_len_eq_steps]
  have haL : spec_clamp_step q c ≤ q.liftN - 2 * q.ls := by
    unfold spec_clamp_step; split <;> omega
  have hbF : (q.bgK + 2) * q.ls ≤ spec_floor_step q (spec_clamp_step q c) := by
    unfold spec_floor_step; split <;> omega
  have hbL : spec_floor_step q (spec_clamp_step q c) ≤ q.liftN - 2 * q.ls := by
    unfold spec_floor_step; split <;> omega
  set b := spec_floor_step q (spec_clamp_step q c) with hb
  unfold spec_round_step
  split
  · next hmod =>
    have hlt : b < (b / q.ls + 1) * q.ls := lt_next_multiple q hls b
    refine ⟨Nat.mul_mod_left _ _, le_trans hbF (le_of_lt hlt), ?_⟩
    have hbL' : b < q.liftN - 2 * q.ls := by
      rcases lt_or_eq_of_le hbL with h | h
      · exact h
      · exfalso
        obtain ⟨k, hk⟩ := hdvd
        rw [h, hk] at hmod
        exact hmod (Nat.mul_mod_right _ _)
    have hdiv : b / q.ls < (q.liftN - 2 * q.ls) / q.ls :=
      Nat.div_lt_div_of_lt_of_dvd hdvd hbL'
    have hmul : (b / q.ls + 1) * q.ls ≤ ((q.liftN - 2 * q.ls) / q.ls) * q.ls :=
      Nat.mul_le_mul_right _ hdiv
    rwa [Nat.div_mul_cancel hdvd] at hmul
  · next hmod =>
    exact ⟨by omega, hbF, hbL⟩

/-- For an initialized instance the floor is below the cap and the cap is a
multiple of `ls`. -/
lemma init_len_facts {type bg ls : Nat} {q : srslte_ldpc_encoder_t}
    (h : srslte_ldpc_encoder_init type bg ls = some q) :
    0 < q.ls ∧ q.ls ∣ (q.liftN - 2 * q.ls) ∧
      (q.bgK + 2) * q.ls ≤ q.liftN - 2 * q.ls := by
  obtain ⟨-, hls2, hliftN, -, hdims⟩ := init_inv h
  have hdvd : q.ls ∣ (q.liftN - 2 * q.ls) :=
    Nat.dvd_sub' (hliftN ▸ Dvd.intro _ rfl) (Dvd.intro 2 (Nat.mul_comm q.ls 2))
  refine ⟨by omega, hdvd, ?_⟩
  rcases hdims with ⟨hN, -, hK⟩ | ⟨hN, -, hK⟩ <;> rw [hliftN, hN, hK] <;> omega

/-- For the two existing base graphs the selection chain always resolves,
and it resolves to the spec's rule. -/
lemma select_hr_variant_eq_rule {bg : Nat} (hbg : bg = BG1 ∨ bg = BG2)
    (idx : Nat) : select_hr_variant bg idx = some (spec_variant_rule bg idx) := by
  rcases hbg with rfl | rfl <;>
    unfold select_hr_variant spec_variant_rule <;>
    by_cases h6 : idx = 6 <;> by_cases h3 : idx = 3 <;> by_cases h7 : idx = 7 <;>
    simp [h6, h3, h7, BG1, BG2]

lemma encode_avx2_eq_encode_c (hr : List Nat → List Nat)
    (ext : List Nat → Nat → List Nat) (q : srslte_ldpc_encoder_t)
    (input output : List Nat) (il c : Nat) :
    encode_avx2 hr ext q input output il c =
      encode_c hr ext q input output il c := rfl

lemma encode_avx2long_eq_encode_c (hr : List Nat → List Nat)
    (ext : List Nat → Nat → List Nat) (q : srslte_ldpc_encoder_t)
    (input output : List Nat) (il c : Nat) :
    encode_avx2long hr ext q input output il c =
      encode_c hr ext q input output il c := rfl

/-- Whatever tier was bound, the indirect `q->encode(...)` call behaves like
the portable encoder. -/
lemma encoder_dispatch_eq_encode_c (hr : List Nat → List Nat)
    (ext : List Nat → Nat → List Nat) (q : srslte_ldpc_encoder_t)
    (input output : List Nat) (il c : Nat) :
    encoder_dispatch hr ext q input output il c =
      encode_c hr ext q input output il c := by
  unfold encoder_dispatch
  rcases q.tier with _ | _ | t
  · rfl
  · exact encode_avx2_eq_encode_c hr ext q input output il c
  · exact encode_avx2long_eq_encode_c hr ext q input output il c

/-- `liftN - 2*ls` is a fixed point of the length normalization. -/
lemma normalize_len_full_rate (q : srslte_ldpc_encoder_t)
    (hdvd : q.ls ∣ (q.liftN - 2 * q.ls))
    (hFL : (q.bgK + 2) * q.ls ≤ q.liftN - 2 * q.ls) :
    normalize_len q (q.liftN - 2 * q.ls) = q.liftN - 2 * q.ls := by
  rw [normalize_len_eq_steps]
  unfold spec_clamp_step spec_floor_step spec_round_step
  rw [if_neg (lt_irrefl _), if_neg (not_lt.mpr hFL), if_neg]
  obtain ⟨k, hk⟩ := hdvd
  simp [hk, Nat.mul_mod_right]

/-- The layer count computed by the encoders: the `uint32` subtraction and
the `uint8` narrowing are exact, and the value lies in `[4, bgM]`. -/
lemma n_layers_props {type bg ls : Nat} {q : srslte_ldpc_encoder_t}
    (h : srslte_ldpc_encoder_init type bg ls = some q) (c : Nat) :
    n_layers_c q (normalize_len q c) =
        normalize_len q c / q.ls - q.bgK + 2 ∧
      4 ≤ n_layers_c q (normalize_len q c) ∧
      n_layers_c q (normalize_len q c) ≤ q.bgM := by
  obtain ⟨hls0, hdvd, hFL⟩ := init_len_facts h
  obtain ⟨hmod, hlow, hhigh⟩ := normalize_len_props q hls0 hdvd hFL c
  obtain ⟨-, hls2, hliftN, hNKM, hdims⟩ := init_inv h
  set len := normalize_len q c with hlen
  have hcancel : len / q.ls * q.ls = len :=
    Nat.div_mul_cancel (Nat.dvd_of_mod_eq_zero hmod)
  have hdlow : q.bgK + 2 ≤ len / q.ls := by
    have hl : (q.bgK + 2) * q.ls ≤ len / q.ls * q.ls := by rw [hcancel]; exact hlow
    exact Nat.le_of_mul_le_mul_right hl hls0
  have hdhigh : len / q.ls ≤ q.bgN - 2 := by
    have hh : len / q.ls * q.ls ≤ (q.bgN - 2) * q.ls := by
      rw [hcancel]
      have heq : q.liftN - 2 * q.ls = (q.bgN - 2) * q.ls := by
        rw [hliftN]
        rcases hdims with ⟨hN, -, -⟩ | ⟨hN, -, -⟩ <;> rw [hN] <;> omega
      rw [← heq]
      exact hhigh
    exact Nat.le_of_mul_le_mul_right hh hls0
  unfold n_layers_c
  have h32 : (2 : Nat) ^ 32 = 4294967296 := by norm_num
  have h8 : (2 : Nat) ^ 8 = 256 := by norm_num
  rw [h32, h8]
  rcases hdims with ⟨hN, hM, hK⟩ | ⟨hN, hM, hK⟩ <;>
    rw [hN] at hdhigh <;> rw [hK] at hdlow ⊢ <;> rw [hM] <;> omega

/-- The portable-tier instance for BG1 with lifting size 2, exactly as
`srslte_ldpc_encoder_init 0 BG1 2` builds it (used as a concrete test
fixture). -/
def qBG1ls2 : srslte_ldpc_encoder_t :=
  { bg := 0, bgN := 68, bgM := 46, bgK := 22, ls := 2, liftK := 44,
    liftM := 92, liftN := 136, pcm_set := true, ptr_set := true,
    free_set := true, hr_variant := 1, tier := 0 }

lemma init_qBG1ls2 : srslte_ldpc_encoder_init 0 0 2 = some qBG1ls2 := by decide

/-- A concrete stand-in for the high-rate kernel binding of `qBG1ls2`,
producing the four parity blocks (all-zero) of width `ls = 2`. -/
def hr0 : List Nat → List Nat := fun _ => List.replicate 8 0

/-- A concrete stand-in for the extension-region kernel of `qBG1ls2`,
producing `n_layers - 4` further all-zero parity blocks of width `ls = 2`. -/
def ext0 : List Nat → Nat → List Nat := fun _ n => List.replicate ((n - 4) * 2) 0

/-! ## Claim theorems -/

/-- C1: For every initialized encoder instance and every requested codeword
length (including 0 and values far above `liftN`), the effective output
length used by `encode_rm` after normalization is a multiple of `ls` and
lies in the interval `[(bgK+2)*ls, liftN - 2*ls]`. -/
theorem encode_rm_effective_length_in_range {type bg ls : Nat}
    {q : srslte_ldpc_encoder_t}
    (h : srslte_ldpc_encoder_init type bg ls = some q) (c : Nat) :
    normalize_len q c % q.ls = 0 ∧
      (q.bgK + 2) * q.ls ≤ normalize_len q c ∧
      normalize_len q c ≤ q.liftN - 2 * q.ls := by
  obtain ⟨hls, hdvd, hFL⟩ := init_len_facts h
  exact normalize_len_props q hls hdvd hFL c

/-- Witness for C1 at the instance (BG1, ls = 2) and the requested length 0. -/
theorem encode_rm_effective_length_in_range_witness :
    normalize_len qBG1ls2 0 % qBG1ls2.ls = 0 ∧
      (qBG1ls2.bgK + 2) * qBG1ls2.ls ≤ normalize_len qBG1ls2 0 ∧
      normalize_len qBG1ls2 0 ≤ qBG1ls2.liftN - 2 * qBG1ls2.ls :=
  encode_rm_effective_length_in_range init_qBG1ls2 0

/-- C2 does not hold as stated: the dimension check uses the integer
division `input_length / bgK != ls`, so an `input_length` that is not
`bgK` clean blocks of width `ls` can still be accepted. Concretely, for
the initialized BG1/ls=2 instance (`bgK * ls = 44`), `input_length = 45`
is not a multiple of `bgK = 22` blocks of width `ls = 2`, yet `encode`
returns 0 (success) and does write the output buffer. -/
theorem encode_dim_check_cex :
    45 ≠ qBG1ls2.bgK * qBG1ls2.ls ∧
      (encode_c hr0 ext0 qBG1ls2 (List.replicate 45 1)
          (List.replicate 136 7) 45 136).1 = 0 ∧
      (encode_c hr0 ext0 qBG1ls2 (List.replicate 45 1)
          (List.replicate 136 7) 45 136).2 ≠ List.replicate 136 7 := by
  decide

/-- C2 (amended): `encode` reports a usage error (negative result) and
leaves the output buffer untouched exactly when the integer division
`input_length / bgK` differs from `ls` — that is, exactly when
`input_length` lies outside `[bgK*ls, bgK*ls + bgK)`; otherwise it returns
0 and overwrites the front of the buffer with the codeword. -/
theorem encode_dim_check_characterization (hr : List Nat → List Nat)
    (ext : List Nat → Nat → List Nat) (q : srslte_ldpc_encoder_t)
    (input output : List Nat) (il c : Nat) :
    ((encode_c hr ext q input output il c).1 < 0 ↔ il / q.bgK ≠ q.ls) ∧
      (encode_c hr ext q input output il c).2 =
        (if il / q.bgK ≠ q.ls then output
         else codeword_c hr ext q input c ++
                output.drop (codeword_c hr ext q input c).length) := by
  unfold encode_c
  by_cases hd : il / q.bgK ≠ q.ls <;> simp [hd]

/-- C3: the portable tier and the two accelerated tiers of
`encode`/`encode_rm` produce identical results — error code and output
bytes — for identical `(input, input_length, requested_length)`, for any
instance and any bound kernel pair. -/
theorem encode_tiers_byte_identical (hr : List Nat → List Nat)
    (ext : List Nat → Nat → List Nat) (q : srslte_ldpc_encoder_t)
    (input output : List Nat) (il c : Nat) :
    encode_avx2 hr ext q input output il c =
        encode_c hr ext q input output il c ∧
      encode_avx2long hr ext q input output il c =
        encode_c hr ext q input output il c :=
  ⟨encode_avx2_eq_encode_c hr ext q input output il c,
    encode_avx2long_eq_encode_c hr ext q input output il c⟩

/-- C5: `encode_rm` normalizes the requested length by applying, in this
order, the clamp to `liftN - 2*ls`, the raise to the floor `(bgK+2)*ls`,
and the round-up to the next multiple of `ls`; all three silently — the
result code depends only on the dimension check, never on the requested
length. -/
theorem normalize_silent_clamp_floor_round (hr : List Nat → List Nat)
    (ext : List Nat → Nat → List Nat) (q : srslte_ldpc_encoder_t)
    (input output : List Nat) (il c : Nat) :
    normalize_len q c =
        spec_round_step q (spec_floor_step q (spec_clamp_step q c)) ∧
      (encode_c hr ext q input output il c).1 =
        (if il / q.bgK ≠ q.ls then -1 else 0) := by
  refine ⟨normalize_len_eq_steps q c, ?_⟩
  unfold encode_c
  by_cases hd : il / q.bgK ≠ q.ls <;> simp [hd]

/-- C9: the full-rate operation is definitionally the rate-matched
operation at the maximal length `liftN - 2*ls`. -/
theorem encode_eq_encode_rm_at_full_length (hr : List Nat → List Nat)
    (ext : List Nat → Nat → List Nat) (q : srslte_ldpc_encoder_t)
    (input output : List Nat) (il : Nat) :
    srslte_ldpc_encoder_encode hr ext q input output il =
      srslte_ldpc_encoder_encode_rm hr ext q input output il
        (q.liftN - 2 * q.ls) := rfl

/-- C10: `srslte_ldpc_encoder_free` zeroes the entire instance struct, so a
second call on the result is safe: the stored free pointer is null
(`free_set = false` in `zero_enc`), the guard skips it, and no release
action is performed. -/
theorem free_zeroes_and_double_free_safe (q : srslte_ldpc_encoder_t) :
    (srslte_ldpc_encoder_free q).2 = zero_enc ∧
      zero_enc.free_set = false ∧
      (srslte_ldpc_encoder_free (srslte_ldpc_encoder_free q).2).1 = false := by
  unfold srslte_ldpc_encoder_free
  by_cases hf : q.free_set <;> simp [hf, zero_enc]

/-- C4: Initialization resolves exactly one high-rate kernel variant by the
rule: BG1 with size-class index ≠ 6 → variant 1; BG1 with index 6 →
variant 2; BG2 with index ∉ {3, 7} → variant 3; BG2 with index ∈ {3, 7} →
variant 4 (the four cases of `spec_variant_rule`); any other
(base graph, size class) combination makes initialization fail. -/
theorem init_kernel_variant_selection (type bg ls : Nat)
    (htype : type = 0 ∨ type = 1) :
    (∀ q, srslte_ldpc_encoder_init type bg ls = some q →
        q.hr_variant = spec_variant_rule bg (get_ls_index ls)) ∧
      (get_ls_index ls = VOID_LIFTSIZE ∨ (bg ≠ BG1 ∧ bg ≠ BG2) →
        srslte_ldpc_encoder_init type bg ls = none) ∧
      (get_ls_index ls ≠ VOID_LIFTSIZE → (bg = BG1 ∨ bg = BG2) →
        ∃ q, srslte_ldpc_encoder_init type bg ls = some q) := by
  have hnone : ∀ (t : Nat) (q0 : srslte_ldpc_encoder_t),
      get_ls_index q0.ls = VOID_LIFTSIZE → init_tiered t q0 = none := by
    intro t q0 hv
    unfold init_tiered
    rw [if_pos hv]
  have hsome : ∀ (t : Nat) (q0 : srslte_ldpc_encoder_t),
      q0.bg = BG1 ∨ q0.bg = BG2 → get_ls_index q0.ls ≠ VOID_LIFTSIZE →
      init_tiered t q0 = some { q0 with
        hr_variant := spec_variant_rule q0.bg (get_ls_index q0.ls),
        free_set := true, ptr_set := true, tier := t } := by
    intro t q0 hbg hv
    unfold init_tiered
    rw [if_neg hv, select_hr_variant_eq_rule hbg]
  have core : ∀ (t : Nat) (q0 : srslte_ldpc_encoder_t),
      srslte_ldpc_encoder_init type bg ls = init_tiered t q0 →
      q0.bg = bg → q0.ls = ls → (bg = BG1 ∨ bg = BG2) →
      (∀ q, srslte_ldpc_encoder_init type bg ls = some q →
          q.hr_variant = spec_variant_rule bg (get_ls_index ls)) ∧
        (get_ls_index ls = VOID_LIFTSIZE ∨ (bg ≠ BG1 ∧ bg ≠ BG2) →
          srslte_ldpc_encoder_init type bg ls = none) ∧
        (get_ls_index ls ≠ VOID_LIFTSIZE → (bg = BG1 ∨ bg = BG2) →
          ∃ q, srslte_ldpc_encoder_init type bg ls = some q) := by
    intro t q0 E hqbg hqls hbg
    refine ⟨?_, ?_, ?_⟩
    · intro q h
      rw [E] at h
      by_cases hv : get_ls_index q0.ls = VOID_LIFTSIZE
      · rw [hnone t q0 hv] at h
        exact absurd h (by simp)
      · rw [hsome t q0 (hqbg ▸ hbg) hv] at h
        have hq := (Option.some.inj h).symm
        rw [hq]
        simp [hqbg, hqls]
    · intro hcase
      rcases hcase with hv | ⟨hb1, hb2⟩
      · rw [E]
        exact hnone t q0 (by rw [hqls]; exact hv)
      · rcases hbg with hb | hb
        exacts [absurd hb hb1, absurd hb hb2]
    · intro hv _
      rw [E]
      exact ⟨_, hsome t q0 (hqbg ▸ hbg) (by rw [hqls]; exact hv)⟩
  rcases htype with rfl | rfl <;> rcases bg with _ | _ | b
  · refine core 0 _ rfl ?_ ?_ (Or.inl rfl) <;> rfl
  · refine core 0 _ rfl ?_ ?_ (Or.inr rfl) <;> rfl
  · refine ⟨?_, fun _ => rfl, ?_⟩
    · intro q h
      rw [show srslte_ldpc_encoder_init 0 (b + 1 + 1) ls = none from rfl] at h
      exact absurd h (by simp)
    · intro _ hbg
      rcases hbg with hb | hb <;> simp only [BG1, BG2] at hb <;> omega
  · by_cases h32 : ls ≤ SRSLTE_AVX2_B_SIZE
    · refine core 1 { bg := 0, bgN := BG1Nfull, bgM := BG1M,
                      bgK := BG1Nfull - BG1M, ls := ls,
                      liftK := ls * (BG1Nfull - BG1M), liftM := ls * BG1M,
                      liftN := ls * BG1Nfull, pcm_set := true,
                      ptr_set := false, free_set := false, hr_variant := 0,
                      tier := 0 } ?_ rfl rfl (Or.inl rfl)
      show (if ls ≤ SRSLTE_AVX2_B_SIZE then init_avx2 _ else init_avx2long _) =
        init_tiered 1 _
      rw [if_pos h32]
      rfl
    · refine core 2 { bg := 0, bgN := BG1Nfull, bgM := BG1M,
                      bgK := BG1Nfull - BG1M, ls := ls,
                      liftK := ls * (BG1Nfull - BG1M), liftM := ls * BG1M,
                      liftN := ls * BG1Nfull, pcm_set := true,
                      ptr_set := false, free_set := false, hr_variant := 0,
                      tier := 0 } ?_ rfl rfl (Or.inl rfl)
      show (if ls ≤ SRSLTE_AVX2_B_SIZE then init_avx2 _ else init_avx2long _) =
        init_tiered 2 _
      rw [if_neg h32]
      rfl
  · by_cases h32 : ls ≤ SRSLTE_AVX2_B_SIZE
    · refine core 1 { bg := 1, bgN := BG2Nfull, bgM := BG2M,
                      bgK := BG2Nfull - BG2M, ls := ls,
                      liftK := ls * (BG2Nfull - BG2M), liftM := ls * BG2M,
                      liftN := ls * BG2Nfull, pcm_set := true,
                      ptr_set := false, free_set := false, hr_variant := 0,
                      tier := 0 } ?_ rfl rfl (Or.inr rfl)
      show (if ls ≤ SRSLTE_AVX2_B_SIZE then init_avx2 _ else init_avx2long _) =
        init_tiered 1 _
      rw [if_pos h32]
      rfl
    · refine core 2 { bg := 1, bgN := BG2Nfull, bgM := BG2M,
                      bgK := BG2Nfull - BG2M, ls := ls,
                      liftK := ls * (BG2Nfull - BG2M), liftM := ls * BG2M,
                      liftN := ls * BG2Nfull, pcm_set := true,
                      ptr_set := false, free_set := false, hr_variant := 0,
                      tier := 0 } ?_ rfl rfl (Or.inr rfl)
      show (if ls ≤ SRSLTE_AVX2_B_SIZE then init_avx2 _ else init_avx2long _) =
        init_tiered 2 _
      rw [if_neg h32]
      rfl
  · refine ⟨?_, fun _ => rfl, ?_⟩
    · intro q h
      rw [show srslte_ldpc_encoder_init 1 (b + 1 + 1) ls = none from rfl] at h
      exact absurd h (by simp)
    · intro _ hbg
      rcases hbg with hb | hb <;> simp only [BG1, BG2] at hb <;> omega

/-- Witness for C4 at `(type, bg, ls) = (0, BG1, 2)`. -/
theorem init_kernel_variant_selection_witness :
    (∀ q, srslte_ldpc_encoder_init 0 0 2 = some q →
        q.hr_variant = spec_variant_rule 0 (get_ls_index 2)) ∧
      (get_ls_index 2 = VOID_LIFTSIZE ∨ ((0 : Nat) ≠ BG1 ∧ (0 : Nat) ≠ BG2) →
        srslte_ldpc_encoder_init 0 0 2 = none) ∧
      (get_ls_index 2 ≠ VOID_LIFTSIZE → ((0 : Nat) = BG1 ∨ (0 : Nat) = BG2) →
        ∃ q, srslte_ldpc_encoder_init 0 0 2 = some q) :=
  init_kernel_variant_selection 0 0 2 (Or.inl rfl)

/-- C6: for an accepted input, bytes `[0, (bgK-2)*ls)` of the produced
codeword equal input bytes `[2*ls, bgK*ls)` unchanged — the systematic
region of the output is the input with its first two `ls`-wide blocks
punctured. -/
theorem systematic_region_roundtrip {type bg ls : Nat}
    {q : srslte_ldpc_encoder_t}
    (_h : srslte_ldpc_encoder_init type bg ls = some q)
    (hr : List Nat → List Nat) (ext : List Nat → Nat → List Nat)
    (input output : List Nat) (il c k : Nat)
    (hil : il / q.bgK = q.ls) (hk : k < (q.bgK - 2) * q.ls) :
    (encode_c hr ext q input output il c).2.getD k 0 =
      input.getD (2 * q.ls + k) 0 := by
  unfold encode_c
  rw [if_neg (not_not_intro hil)]
  show (codeword_c hr ext q input c ++
      output.drop (codeword_c hr ext q input c).length).getD k 0 = _
  have h0 : k < (systematic_out q input).length := by
    simpa [systematic_out] using hk
  have h1 : k < (systematic_out q input ++ hr input).length := by
    rw [List.length_append]
    omega
  have h2 : k < (codeword_c hr ext q input c).length := by
    unfold codeword_c
    rw [List.length_append]
    omega
  rw [List.getD_append _ _ _ _ h2]
  unfold codeword_c
  rw [List.getD_append _ _ _ _ h1, List.getD_append _ _ _ _ h0,
    List.getD_eq_getElem _ _ h0]
  simp [systematic_out]

/-- Witness for C6 at the (BG1, ls = 2) instance, `k = 0`, with
`input_length = 44 = bgK * ls`. -/
theorem systematic_region_roundtrip_witness :
    (encode_c hr0 ext0 qBG1ls2 (List.range 45)
        (List.replicate 140 9) 44 136).2.getD 0 0 =
      (List.range 45).getD (2 * qBG1ls2.ls + 0) 0 :=
  systematic_region_roundtrip init_qBG1ls2 hr0 ext0 (List.range 45)
    (List.replicate 140 9) 44 136 0 (by decide) (by decide)

/-- C7: the full-rate operation `srslte_ldpc_encoder_encode` (no explicit
rate matching) accepts an input of `bgK` blocks of width `ls` and produces
a codeword of length exactly `liftN - 2*ls`. -/
theorem full_rate_encode_output_length {type bg ls : Nat}
    {q : srslte_ldpc_encoder_t}
    (h : srslte_ldpc_encoder_init type bg ls = some q)
    (hr : List Nat → List Nat) (ext : List Nat → Nat → List Nat)
    (input output : List Nat) (il : Nat)
    (hil : il / q.bgK = q.ls)
    (hhr : (hr input).length = 4 * q.ls)
    (hext : ∀ n, (ext input n).length = (n - 4) * q.ls) :
    (srslte_ldpc_encoder_encode hr ext q input output il).1 = 0 ∧
      (codeword_c hr ext q input (q.liftN - 2 * q.ls)).length =
        q.liftN - 2 * q.ls ∧
      (srslte_ldpc_encoder_encode hr ext q input output il).2 =
        codeword_c hr ext q input (q.liftN - 2 * q.ls) ++
          output.drop (q.liftN - 2 * q.ls) := by
  obtain ⟨hls0, hdvd, hFL⟩ := init_len_facts h
  obtain ⟨hnl, -, -⟩ := n_layers_props h (q.liftN - 2 * q.ls)
  obtain ⟨-, hls2, hliftN, hNKM, hdims⟩ := init_inv h
  have hfix := normalize_len_full_rate q hdvd hFL
  have hdiv : (q.liftN - 2 * q.ls) / q.ls = q.bgN - 2 := by
    have heq : q.liftN - 2 * q.ls = (q.bgN - 2) * q.ls := by
      rw [hliftN]
      rcases hdims with ⟨hN, -, -⟩ | ⟨hN, -, -⟩ <;> rw [hN] <;> omega
    rw [heq, Nat.mul_div_cancel _ hls0]
  have hnl' : n_layers_c q (normalize_len q (q.liftN - 2 * q.ls)) =
      q.bgN - 2 - q.bgK + 2 := by
    rw [hnl, hfix, hdiv]
  have hlen : (codeword_c hr ext q input (q.liftN - 2 * q.ls)).length =
      q.liftN - 2 * q.ls := by
    simp only [codeword_c, List.length_append, hnl', hhr, hext]
    have hsys : (systematic_out q input).length = (q.bgK - 2) * q.ls := by
      simp [systematic_out]
    rw [hsys, hliftN]
    rcases hdims with ⟨hN, -, hK⟩ | ⟨hN, -, hK⟩ <;> rw [hN, hK] <;> omega
  have hmain : srslte_ldpc_encoder_encode hr ext q input output il =
      (0, codeword_c hr ext q input (q.liftN - 2 * q.ls) ++
        output.drop (codeword_c hr ext q input (q.liftN - 2 * q.ls)).length) := by
    unfold srslte_ldpc_encoder_encode
    rw [encoder_dispatch_eq_encode_c]
    unfold encode_c
    rw [if_neg (not_not_intro hil)]
  rw [hmain, hlen]
  exact ⟨rfl, rfl, rfl⟩

/-- Witness for C7 at the (BG1, ls = 2) instance: the codeword length is
`liftN - 2*ls = 132`. -/
theorem full_rate_encode_output_length_witness :
    (srslte_ldpc_encoder_encode hr0 ext0 qBG1ls2 (List.range 44)
        (List.replicate 140 9) 44).1 = 0 ∧
      (codeword_c hr0 ext0 qBG1ls2 (List.range 44)
          (qBG1ls2.liftN - 2 * qBG1ls2.ls)).length =
        qBG1ls2.liftN - 2 * qBG1ls2.ls ∧
      (srslte_ldpc_encoder_encode hr0 ext0 qBG1ls2 (List.range 44)
          (List.replicate 140 9) 44).2 =
        codeword_c hr0 ext0 qBG1ls2 (List.range 44)
            (qBG1ls2.liftN - 2 * qBG1ls2.ls) ++
          (List.replicate 140 9).drop (qBG1ls2.liftN - 2 * qBG1ls2.ls) :=
  full_rate_encode_output_length init_qBG1ls2 hr0 ext0 (List.range 44)
    (List.replicate 140 9) 44 (by decide) (by decide)
    (fun n => by simp [ext0, qBG1ls2])

/-- C8: the layer count passed to the extension-region kernel equals
`effective_length / ls - bgK + 2` exactly — the `uint32` subtraction and
the narrowing store into the 8-bit `n_layers` never wrap — and lies in
`[4, bgM]` for every initialized instance and every requested length. -/
theorem n_layers_exact_and_in_range {type bg ls : Nat}
    {q : srslte_ldpc_encoder_t}
    (h : srslte_ldpc_encoder_init type bg ls = some q) (c : Nat) :
    n_layers_c q (normalize_len q c) =
        normalize_len q c / q.ls - q.bgK + 2 ∧
      4 ≤ n_layers_c q (normalize_len q c) ∧
      n_layers_c q (normalize_len q c) ≤ q.bgM :=
  n_layers_props h c

/-- Witness for C8 at the (BG1, ls = 2) instance and requested length 50. -/
theorem n_layers_exact_and_in_range_witness :
    n_layers_c qBG1ls2 (normalize_len qBG1ls2 50) =
        normalize_len qBG1ls2 50 / qBG1ls2.ls - qBG1ls2.bgK + 2 ∧
      4 ≤ n_layers_c qBG1ls2 (normalize_len qBG1ls2 50) ∧
      n_layers_c qBG1ls2 (normalize_len qBG1ls2 50) ≤ qBG1ls2.bgM :=
  n_layers_exact_and_in_range init_qBG1ls2 50

end SrsLDPC
